import Mathlib

/-
Verification of the pure glue logic of biobb_pydock.

The repository wraps an external docking binary; its own logic is limited to
building an INI configuration file (biobb_pydock/pydock/common.py, create_ini
and write_ini), renaming or copying files between naming conventions
(common.py, rename_files and copy_files), and filtering a whitespace-delimited
energy-ranking table by an inclusive integer rank range
(biobb_pydock/pydock/makePDB.py, get_conformations,
get_conformation_filenames and MakePDB.get_conformations_dict).

This file gives a shallow embedding of those functions and proves the
specification claims about them.  Python dicts are modelled as association
lists in insertion order, the file system as a partial map from path strings
to file contents, and exceptions (KeyError, pandas read errors) as Option
results where none means the call raised before producing output.
-/

/-- Model of Python `d.get(k)` / `d[k]` on a dict held as an association list
in insertion order: the value at the first (unique) matching key. -/
def lookupDict : List (String × String) → String → Option String
  | [], _ => none
  | (a, b) :: t, k => if a = k then some b else lookupDict t k

/-- Model of Python `d[k] = v`: replace the value at an existing key, else
append the new binding at the end (insertion order). -/
def dictInsert : List (String × String) → String → String → List (String × String)
  | [], k, v => [(k, v)]
  | (a, b) :: t, k, v => if a = k then (a, v) :: t else (a, b) :: dictInsert t k v

/-! ## Whitespace tokenization and integer parsing

`pd.read_csv(input_ene_path, delimiter='\s+')` splits each line on runs of
whitespace; the first line is the header naming the columns.  Integer columns
are parsed as optionally signed decimal numerals. -/

/-- Emit the (reversed) accumulator as a token if it is nonempty. -/
def flushTok (acc : List Char) : List String :=
  if acc.isEmpty then [] else [String.mk acc.reverse]

/-- Split a character list on runs of whitespace, accumulating the current
token in reverse. -/
def splitWsAux : List Char → List Char → List String
  | [], acc => flushTok acc
  | c :: cs, acc =>
    if c.isWhitespace then flushTok acc ++ splitWsAux cs [] else splitWsAux cs (c :: acc)

/-- The whitespace-delimited tokens of a line. -/
def splitWs (s : String) : List String := splitWsAux s.data []

/-- The value of a decimal digit character. -/
def digitVal (c : Char) : Option Nat := if c.isDigit then some (c.toNat - 48) else none

/-- Parse a nonempty run of decimal digits, most significant first. -/
def natFromDigits : List Char → Nat → Option Nat
  | [], acc => some acc
  | c :: cs, acc =>
    match digitVal c with
    | some d => natFromDigits cs (10 * acc + d)
    | none => none

/-- Parse a nonempty digit string to a natural number. -/
def natToken (ds : List Char) : Option Nat :=
  if ds.isEmpty then none else natFromDigits ds 0

/-- Parse an optionally signed decimal integer token. -/
def parseIntToken (s : String) : Option Int :=
  match s.data with
  | '-' :: ds => (natToken ds).map (fun n => -(n : Int))
  | '+' :: ds => (natToken ds).map (fun n => (n : Int))
  | ds => (natToken ds).map (fun n => (n : Int))

/-- Extract the integer entries of the RANK and Conf columns (at header
positions ir and ic) from one data line of the energy table. -/
def parseEneRow (ir ic : Nat) (line : String) : Option (Int × Int) :=
  match (splitWs line)[ir]?, (splitWs line)[ic]? with
  | some rtok, some ctok =>
    match parseIntToken rtok, parseIntToken ctok with
    | some r, some c => some (r, c)
    | _, _ => none
  | _, _ => none

/-- Model of `pd.read_csv(input_ene_path, delimiter='\s+')` restricted to the
two columns the code uses: the first line is the header; every later line
yields its (RANK, Conf) pair of integers.  none models a read or column
error (missing column, malformed table), which in Python raises before any
result is produced. -/
def parseEneRows : List String → Option (List (Int × Int))
  | [] => none
  | header :: dataLines =>
    match (splitWs header).findIdx? (fun c => c = "RANK"),
          (splitWs header).findIdx? (fun c => c = "Conf") with
    | some ir, some ic => dataLines.mapM (parseEneRow ir ic)
    | _, _ => none

/-- The boolean mask `(df['RANK'] >= int(rank1)) & (df['RANK'] <= int(rank2))`
applied to one row.  rank1 and rank2 are the already int()-converted bounds. -/
def inRank (rank1 rank2 : Int) (r : Int) : Bool :=
  decide (rank1 ≤ r) && decide (r ≤ rank2)

/-- makePDB.py get_conformations: read the energy table, keep the rows whose
RANK lies in the inclusive range, and return their Conf values in file
order. -/
def get_conformations (input_ene : List String) (rank1 rank2 : Int) : Option (List Int) :=
  (parseEneRows input_ene).map
    (fun df => (df.filter (fun rc => inRank rank1 rank2 rc.1)).map (fun rc => rc.2))

/-- The f-string f'\x7bdocking_name\x7d_\x7bconf\x7d.pdb' of makePDB.py. -/
def confFilename (docking_name : String) (conf : Int) : String :=
  docking_name ++ "_" ++ toString conf ++ ".pdb"

/-- makePDB.py get_conformation_filenames: the derived pdb file name of each
selected conformation. -/
def get_conformation_filenames (docking_name : String) (input_ene : List String)
    (rank1 rank2 : Int) : Option (List String) :=
  (get_conformations input_ene rank1 rank2).map
    (fun conformations => conformations.map (confFilename docking_name))

/-- makePDB.py MakePDB.get_conformations_dict, whose result MakePDB.__init__
stores as io_dict['out']: zip the conformation numbers with the derived file
names and load them into a dict keyed by str(conf). -/
def get_conformations_dict (docking_name : String) (input_ene : List String)
    (rank1 rank2 : Int) : Option (List (String × String)) :=
  match get_conformations input_ene rank1 rank2,
        get_conformation_filenames docking_name input_ene rank1 rank2 with
  | some conformations, some output_files =>
    some ((conformations.zip output_files).foldl
      (fun d cf => dictInsert d (toString cf.1) cf.2) [])
  | _, _ => none

/-! ## common.py: create_ini and write_ini

create_ini receives Python dicts (modelled as association lists), an optional
reference dict and an optional input_paths dict.  It builds the list of INI
lines and hands it to write_ini.  A KeyError (missing 'newmol' key) aborts the
call before write_ini runs, which the model renders as a none result. -/

/-- Python truthiness of an optional string value: None and the empty string
are falsy. -/
def truthy : Option String → Bool
  | none => false
  | some s => s != ""

/-- Python f-string rendering of an optional string: None prints as "None". -/
def pyStr : Option String → String
  | none => "None"
  | some s => s

/-- Python truthiness of the optional input_paths dict: None and the empty
dict are falsy. -/
def truthyDict : Option (List (String × String)) → Bool
  | none => false
  | some d => !d.isEmpty

/-- The seven path variables bound at the top of create_ini. -/
structure ResolvedPaths where
  ligand_pdb_path : Option String
  ligand_coords_path : Option String
  ligand_top_path : Option String
  receptor_pdb_path : Option String
  receptor_coords_path : Option String
  receptor_top_path : Option String
  reference_path : Option String

/-- The `if input_paths:` block of create_ini: read the seven paths with
.get when the dict is truthy, else use "-" for the pdb paths and None for the
rest. -/
def resolvePaths (input_paths : Option (List (String × String))) : ResolvedPaths :=
  match input_paths with
  | some ip =>
    if ip.isEmpty then
      ⟨some "-", none, none, some "-", none, none, none⟩
    else
      ⟨lookupDict ip "input_lig_pdb_path", lookupDict ip "input_lig_coords_path",
       lookupDict ip "input_lig_top_path", lookupDict ip "input_rec_pdb_path",
       lookupDict ip "input_rec_coords_path", lookupDict ip "input_rec_top_path",
       lookupDict ip "input_ref_path"⟩
  | none => ⟨some "-", none, none, some "-", none, none, none⟩

/-- The f-string f'\x7bkey\x7d = \x7bvalue\x7d' used for every property
entry. -/
def kvLine (k v : String) : String := k ++ " = " ++ v

/-- One 'key = value' line per dict entry, in insertion order. -/
def kvLines (props : List (String × String)) : List String :=
  props.map (fun p => kvLine p.1 p.2)

/-- The pdb line of a section: coordinates and topology when both are truthy,
else the pdb path (rendering None as Python would). -/
def pdbLine (coords top pdb : Option String) : String :=
  if truthy coords && truthy top then "pdb = " ++ (pyStr coords ++ ("," ++ pyStr top))
  else "pdb = " ++ pyStr pdb

/-- The receptor section's pdb line. -/
def recPdbLine (ip : Option (List (String × String))) : String :=
  pdbLine (resolvePaths ip).receptor_coords_path (resolvePaths ip).receptor_top_path
    (resolvePaths ip).receptor_pdb_path

/-- The ligand section's pdb line. -/
def ligPdbLine (ip : Option (List (String × String))) : String :=
  pdbLine (resolvePaths ip).ligand_coords_path (resolvePaths ip).ligand_top_path
    (resolvePaths ip).ligand_pdb_path

/-- The receptor block of ini_lines: header, pdb line, property items. -/
def recLines (rp : List (String × String)) (ip : Option (List (String × String))) :
    List String :=
  "[receptor]" :: recPdbLine ip :: kvLines rp

/-- The ligand block of ini_lines: header, pdb line, property items. -/
def ligLines (lp : List (String × String)) (ip : Option (List (String × String))) :
    List String :=
  "[ligand]" :: ligPdbLine ip :: kvLines lp

/-- The reference block: header, pdb line, reference items, then the
newrecmol and newligmol lines read from receptor_prop["newmol"] and
ligand_prop["newmol"]; a missing "newmol" key is Python's KeyError, raised
before write_ini is called. -/
def refLines (rp lp refd : List (String × String)) (refpath : String) :
    Option (List String) :=
  match lookupDict rp "newmol", lookupDict lp "newmol" with
  | some newrec, some newlig =>
    some (["[reference]", "pdb = " ++ refpath] ++ kvLines refd ++
      ["newrecmol = " ++ newrec, "newligmol = " ++ newlig])
  | _, _ => none

/-- common.py create_ini: receptor block, ligand block, and the reference
block exactly when `None not in (reference_prop, reference_path)`, i.e. both
are non-None. -/
def create_ini (receptor_prop ligand_prop : List (String × String))
    (reference_prop : Option (List (String × String)))
    (input_paths : Option (List (String × String))) : Option (List String) :=
  match reference_prop, (resolvePaths input_paths).reference_path with
  | some refd, some refpath =>
    (refLines receptor_prop ligand_prop refd refpath).map
      (fun tail =>
        recLines receptor_prop input_paths ++ ligLines ligand_prop input_paths ++ tail)
  | _, _ => some (recLines receptor_prop input_paths ++ ligLines ligand_prop input_paths)

/-- common.py write_ini: each line is written followed by exactly one newline
character; the file content is their concatenation. -/
def write_ini (ini_lines : List String) : String :=
  String.join (ini_lines.map (fun line => line ++ "\n"))

/-- The content written to output_path by create_ini, none when the call
raised before writing. -/
def create_ini_file (receptor_prop ligand_prop : List (String × String))
    (reference_prop : Option (List (String × String)))
    (input_paths : Option (List (String × String))) : Option String :=
  (create_ini receptor_prop ligand_prop reference_prop input_paths).map write_ini

/-! ## String helper lemmas -/

lemma strData_append (a b : String) : (a ++ b).data = a.data ++ b.data := by
  obtain ⟨as⟩ := a
  obtain ⟨bs⟩ := b
  rfl

lemma mem_strData_append (c : Char) (a b : String) :
    c ∈ (a ++ b).data ↔ c ∈ a.data ∨ c ∈ b.data := by
  rw [strData_append]
  exact List.mem_append

/-- Every generated key-value line contains the separator character. -/
lemma eq_mem_kvLine (k v : String) : '=' ∈ (kvLine k v).data := by
  unfold kvLine
  rw [mem_strData_append]
  left
  rw [mem_strData_append]
  right
  decide

/-- The reference header is not a key-value line. -/
lemma refheader_ne_kvLine (k v : String) : "[reference]" ≠ kvLine k v := by
  intro h
  have hmem : '=' ∈ ("[reference]" : String).data := h ▸ eq_mem_kvLine k v
  exact absurd hmem (by decide)

/-- The pdb line of a section is a key-value line with key "pdb". -/
lemma pdb_eq_kvLine (x : String) : "pdb = " ++ x = kvLine "pdb" x := by
  unfold kvLine
  rw [show ("pdb" ++ " = " : String) = "pdb = " from by decide]

lemma newrecmol_eq_kvLine (x : String) : "newrecmol = " ++ x = kvLine "newrecmol" x := by
  unfold kvLine
  rw [show ("newrecmol" ++ " = " : String) = "newrecmol = " from by decide]

lemma newligmol_eq_kvLine (x : String) : "newligmol = " ++ x = kvLine "newligmol" x := by
  unfold kvLine
  rw [show ("newligmol" ++ " = " : String) = "newligmol = " from by decide]

lemma pdbLine_is_kvLine (coords top pdb : Option String) :
    ∃ v, pdbLine coords top pdb = kvLine "pdb" v := by
  unfold pdbLine
  by_cases h : (truthy coords && truthy top) = true
  · exact ⟨pyStr coords ++ ("," ++ pyStr top), by rw [if_pos h, pdb_eq_kvLine]⟩
  · exact ⟨pyStr pdb, by rw [if_neg h, pdb_eq_kvLine]⟩

/-- The reference header does not occur in the receptor block. -/
lemma refheader_not_mem_recLines (rp : List (String × String))
    (ip : Option (List (String × String))) : "[reference]" ∉ recLines rp ip := by
  intro h
  unfold recLines at h
  rcases List.mem_cons.mp h with h1 | h
  · exact absurd h1 (by decide)
  rcases List.mem_cons.mp h with h2 | h
  · obtain ⟨v, hv⟩ := pdbLine_is_kvLine (resolvePaths ip).receptor_coords_path
      (resolvePaths ip).receptor_top_path (resolvePaths ip).receptor_pdb_path
    exact refheader_ne_kvLine "pdb" v (h2.trans hv)
  · obtain ⟨p, _, hp⟩ := List.mem_map.mp h
    exact refheader_ne_kvLine p.1 p.2 hp.symm

/-- The reference header does not occur in the ligand block. -/
lemma refheader_not_mem_ligLines (lp : List (String × String))
    (ip : Option (List (String × String))) : "[reference]" ∉ ligLines lp ip := by
  intro h
  unfold ligLines at h
  rcases List.mem_cons.mp h with h1 | h
  · exact absurd h1 (by decide)
  rcases List.mem_cons.mp h with h2 | h
  · obtain ⟨v, hv⟩ := pdbLine_is_kvLine (resolvePaths ip).ligand_coords_path
      (resolvePaths ip).ligand_top_path (resolvePaths ip).ligand_pdb_path
    exact refheader_ne_kvLine "pdb" v (h2.trans hv)
  · obtain ⟨p, _, hp⟩ := List.mem_map.mp h
    exact refheader_ne_kvLine p.1 p.2 hp.symm

/-! ## Lemmas about the dict model -/

/-- Looking up after an insert: the inserted key now has the new value and
every other key is untouched. -/
lemma lookupDict_dictInsert (d : List (String × String)) (k v k' : String) :
    lookupDict (dictInsert d k v) k' = if k' = k then some v else lookupDict d k' := by
  induction d with
  | nil =>
    by_cases h : k' = k
    · simp_all [dictInsert, lookupDict]
    · simp_all [dictInsert, lookupDict, Ne.symm h]
  | cons hd tl ih =>
    obtain ⟨a, b⟩ := hd
    by_cases hak : a = k <;> by_cases hak' : a = k' <;> by_cases hkk' : k' = k <;>
      simp_all [dictInsert, lookupDict]

/-- Folding keyed inserts whose value is a function of the key: lookup finds
the function value at any inserted key and falls through otherwise. -/
lemma lookupDict_foldl_dictInsert (g : String → String) :
    ∀ (ks : List String) (d : List (String × String)) (k : String),
      lookupDict (ks.foldl (fun d s => dictInsert d s (g s)) d) k =
        if k ∈ ks then some (g k) else lookupDict d k := by
  intro ks
  induction ks with
  | nil => intro d k; simp
  | cons s t ih =>
    intro d k
    rw [List.foldl_cons, ih]
    by_cases hkt : k ∈ t
    · simp [hkt]
    · by_cases hks : k = s
      · subst hks; simp [hkt, lookupDict_dictInsert]
      · simp [hkt, hks, lookupDict_dictInsert]

/-- Zipping a list with its own image under a map pairs each element with its
image. -/
lemma zip_map_self {α β : Type} (f : α → β) (l : List α) :
    l.zip (l.map f) = l.map (fun c => (c, f c)) := by
  induction l with
  | nil => rfl
  | cons a t ih => simp [ih]

/-! ## Claims about the energy-table filter -/

/-- C1: get_conformations returns exactly the Conf values of the rows of the
whitespace-delimited energy table whose RANK value lies between the
int()-converted bounds rank1 and rank2, with both endpoints included, in the
order in which the rows appear in the file. -/
theorem get_conformations_inclusive_range (input_ene : List String) (rank1 rank2 : Int)
    (rows : List (Int × Int)) (h : parseEneRows input_ene = some rows) :
    get_conformations input_ene rank1 rank2 =
      some (rows.filterMap
        (fun rc => if rank1 ≤ rc.1 ∧ rc.1 ≤ rank2 then some rc.2 else none)) := by
  have hmain : ∀ rows2 : List (Int × Int),
      (rows2.filter (fun rc => inRank rank1 rank2 rc.1)).map (fun rc => rc.2) =
        rows2.filterMap
          (fun rc => if rank1 ≤ rc.1 ∧ rc.1 ≤ rank2 then some rc.2 else none) := by
    intro rows2
    induction rows2 with
    | nil => rfl
    | cons hd tl ih =>
      simp only [inRank] at ih ⊢
      by_cases h1 : rank1 ≤ hd.1 <;> by_cases h2 : hd.1 ≤ rank2 <;>
        simp [List.filter_cons, List.filterMap_cons, h1, h2, ih]
  unfold get_conformations
  rw [h]
  exact congrArg some (hmain rows)

/-- Witness for C1 on a concrete three-row table with bounds 1 and 2. -/
theorem get_conformations_inclusive_range_witness :
    parseEneRows ["Conf RANK Ene", "3 1 -5", "7 2 -4", "9 3 -3"] =
        some [(1, 3), (2, 7), (3, 9)] ∧
      get_conformations ["Conf RANK Ene", "3 1 -5", "7 2 -4", "9 3 -3"] 1 2 =
        some ([((1 : Int), (3 : Int)), (2, 7), (3, 9)].filterMap
          (fun rc => if (1 : Int) ≤ rc.1 ∧ rc.1 ≤ 2 then some rc.2 else none)) :=
  ⟨by decide, get_conformations_inclusive_range _ 1 2 _ (by decide)⟩

/-- C4: get_conformation_filenames is the elementwise map of
conf to docking_name_conf.pdb over get_conformations: same length, order
preserved, i-th filename derived from the i-th identifier. -/
theorem get_conformation_filenames_map (docking_name : String) (input_ene : List String)
    (rank1 rank2 : Int) (confs : List Int)
    (h : get_conformations input_ene rank1 rank2 = some confs) :
    get_conformation_filenames docking_name input_ene rank1 rank2 =
        some (confs.map (confFilename docking_name)) ∧
      (confs.map (confFilename docking_name)).length = confs.length ∧
      ∀ i : Nat, (confs.map (confFilename docking_name))[i]? =
        (confs[i]?).map (confFilename docking_name) := by
  refine ⟨?_, by simp, ?_⟩
  · unfold get_conformation_filenames
    rw [h]
    rfl
  · intro i
    simp

/-- Witness for C4 on a concrete table. -/
theorem get_conformation_filenames_map_witness :
    get_conformations ["Conf RANK Ene", "3 1 -5", "7 2 -4"] 1 2 = some [3, 7] ∧
      (get_conformation_filenames "dock" ["Conf RANK Ene", "3 1 -5", "7 2 -4"] 1 2 =
          some ([(3 : Int), 7].map (confFilename "dock")) ∧
        ([(3 : Int), 7].map (confFilename "dock")).length = [(3 : Int), 7].length ∧
        ∀ i : Nat, ([(3 : Int), 7].map (confFilename "dock"))[i]? =
          ([(3 : Int), 7][i]?).map (confFilename "dock")) :=
  ⟨by decide, get_conformation_filenames_map "dock" _ 1 2 [3, 7] (by decide)⟩

/-- C5: the output dictionary io_dict['out'] built by
MakePDB.get_conformations_dict maps, for each selected conformation conf, the
key str(conf) to the filename docking_name_conf.pdb, and contains no other
entries. -/
theorem get_conformations_dict_lookup (docking_name : String) (input_ene : List String)
    (rank1 rank2 : Int) (confs : List Int) (d : List (String × String))
    (hconf : get_conformations input_ene rank1 rank2 = some confs)
    (hdict : get_conformations_dict docking_name input_ene rank1 rank2 = some d) :
    ∀ k v, lookupDict d k = some v ↔
      ∃ conf ∈ confs, k = toString conf ∧ v = confFilename docking_name conf := by
  have hfiles : get_conformation_filenames docking_name input_ene rank1 rank2 =
      some (confs.map (confFilename docking_name)) := by
    unfold get_conformation_filenames
    rw [hconf]
    rfl
  unfold get_conformations_dict at hdict
  rw [hconf, hfiles] at hdict
  have hd : d = (confs.zip (confs.map (confFilename docking_name))).foldl
      (fun d cf => dictInsert d (toString cf.1) cf.2) [] :=
    (Option.some.injEq _ _ ▸ hdict).symm
  rw [zip_map_self, List.foldl_map] at hd
  have hd2 : d = (confs.map toString).foldl
      (fun d s => dictInsert d s (docking_name ++ "_" ++ s ++ ".pdb")) [] := by
    rw [List.foldl_map]
    exact hd
  intro k v
  rw [hd2, lookupDict_foldl_dictInsert]
  constructor
  · intro hlook
    by_cases hk : k ∈ confs.map toString
    · rw [if_pos hk] at hlook
      obtain ⟨conf, hc, hk2⟩ := List.mem_map.mp hk
      refine ⟨conf, hc, hk2.symm, ?_⟩
      have hv : v = docking_name ++ "_" ++ k ++ ".pdb" := (Option.some.injEq _ _ ▸ hlook).symm
      rw [hv, ← hk2]
      rfl
    · rw [if_neg hk] at hlook
      exact absurd hlook (by simp [lookupDict])
  · rintro ⟨conf, hc, rfl, rfl⟩
    have hmem : toString conf ∈ confs.map toString := List.mem_map_of_mem _ hc
    rw [if_pos hmem]
    rfl

/-- Witness for C5 on a concrete table: key "3" holds dock_3.pdb. -/
theorem get_conformations_dict_lookup_witness :
    get_conformations ["Conf RANK Ene", "3 1 -5", "7 2 -4"] 1 2 = some [3, 7] ∧
      get_conformations_dict "dock" ["Conf RANK Ene", "3 1 -5", "7 2 -4"] 1 2 =
        some [("3", "dock_3.pdb"), ("7", "dock_7.pdb")] ∧
      (lookupDict [("3", "dock_3.pdb"), ("7", "dock_7.pdb")] "3" = some "dock_3.pdb" ↔
        ∃ conf ∈ [(3 : Int), 7], "3" = toString conf ∧ "dock_3.pdb" = confFilename "dock" conf) :=
  ⟨by decide, by decide,
    get_conformations_dict_lookup "dock" ["Conf RANK Ene", "3 1 -5", "7 2 -4"] 1 2 [3, 7]
      [("3", "dock_3.pdb"), ("7", "dock_7.pdb")] (by decide) (by decide) "3" "dock_3.pdb"⟩

/-! ## The shape of create_ini output -/

/-- create_ini when the reference branch is taken. -/
lemma create_ini_ref_eq (rp lp refd : List (String × String))
    (ip : Option (List (String × String))) (refpath : String)
    (hpath : (resolvePaths ip).reference_path = some refpath) :
    create_ini rp lp (some refd) ip =
      (refLines rp lp refd refpath).map
        (fun tail => recLines rp ip ++ ligLines lp ip ++ tail) := by
  unfold create_ini
  rw [hpath]

/-- create_ini when the reference branch is skipped. -/
lemma create_ini_noref_eq (rp lp : List (String × String))
    (refp ip : Option (List (String × String)))
    (h : refp = none ∨ (resolvePaths ip).reference_path = none) :
    create_ini rp lp refp ip = some (recLines rp ip ++ ligLines lp ip) := by
  rcases h with h | h
  · subst h
    rfl
  · unfold create_ini
    rw [h]
    rcases refp with _ | refd <;> rfl

/-- Full case characterization of a successful create_ini call: the receptor
block, the ligand block, then either the complete reference block or
nothing. -/
lemma create_ini_shape (rp lp : List (String × String))
    (refp ip : Option (List (String × String))) (out : List String)
    (h : create_ini rp lp refp ip = some out) :
    ∃ tail,
      out = ["[receptor]", recPdbLine ip] ++ kvLines rp ++
          ["[ligand]", ligPdbLine ip] ++ kvLines lp ++ tail ∧
        ((∃ refd refpath newrec newlig,
            refp = some refd ∧ (resolvePaths ip).reference_path = some refpath ∧
            lookupDict rp "newmol" = some newrec ∧ lookupDict lp "newmol" = some newlig ∧
            tail = ["[reference]", "pdb = " ++ refpath] ++ kvLines refd ++
              ["newrecmol = " ++ newrec, "newligmol = " ++ newlig]) ∨
          (tail = [] ∧ (refp = none ∨ (resolvePaths ip).reference_path = none))) := by
  rcases hrp : refp with _ | refd
  · have he := create_ini_noref_eq rp lp refp ip (Or.inl hrp)
    rw [he] at h
    have hout := Option.some.inj h
    refine ⟨[], ?_, Or.inr ⟨rfl, Or.inl rfl⟩⟩
    rw [← hout]
    simp [recLines, ligLines]
  · rcases hpath : (resolvePaths ip).reference_path with _ | refpath
    · have he := create_ini_noref_eq rp lp refp ip (Or.inr hpath)
      rw [he] at h
      have hout := Option.some.inj h
      refine ⟨[], ?_, Or.inr ⟨rfl, Or.inr rfl⟩⟩
      rw [← hout]
      simp [recLines, ligLines]
    · rw [hrp] at h
      rw [create_ini_ref_eq rp lp refd ip refpath hpath] at h
      unfold refLines at h
      rcases hnr : lookupDict rp "newmol" with _ | newrec
      · rw [hnr] at h
        cases h
      rcases hnl : lookupDict lp "newmol" with _ | newlig
      · rw [hnr, hnl] at h
        cases h
      rw [hnr, hnl] at h
      have hout := Option.some.inj h
      refine ⟨["[reference]", "pdb = " ++ refpath] ++ kvLines refd ++
          ["newrecmol = " ++ newrec, "newligmol = " ++ newlig], ?_,
        Or.inl ⟨refd, refpath, newrec, newlig, rfl, rfl, rfl, rfl, rfl⟩⟩
      rw [← hout]
      simp [recLines, ligLines]

/-! ## Claims about create_ini -/

/-- C2: the lines written by create_ini come in this order: the receptor
header, the receptor pdb line, one key-value line per receptor_prop entry,
the ligand header, the ligand pdb line, one key-value line per ligand_prop
entry, and finally, only when a reference is present, the reference block;
so the receptor section always precedes the ligand section, which precedes
the reference section when the latter exists. -/
theorem create_ini_section_order (rp lp : List (String × String))
    (refp ip : Option (List (String × String))) (out : List String)
    (h : create_ini rp lp refp ip = some out) :
    ∃ tail,
      out = ["[receptor]", recPdbLine ip] ++ kvLines rp ++
          ["[ligand]", ligPdbLine ip] ++ kvLines lp ++ tail ∧
        ((∃ refd refpath newrec newlig,
            refp = some refd ∧ (resolvePaths ip).reference_path = some refpath ∧
            lookupDict rp "newmol" = some newrec ∧ lookupDict lp "newmol" = some newlig ∧
            tail = ["[reference]", "pdb = " ++ refpath] ++ kvLines refd ++
              ["newrecmol = " ++ newrec, "newligmol = " ++ newlig]) ∨
          (tail = [] ∧ (refp = none ∨ (resolvePaths ip).reference_path = none))) :=
  create_ini_shape rp lp refp ip out h

/-- Witness for C2 on a concrete call without a reference. -/
theorem create_ini_section_order_witness :
    create_ini [("k1", "v1")] [("k2", "v2")] none none =
        some ["[receptor]", "pdb = -", "k1 = v1", "[ligand]", "pdb = -", "k2 = v2"] ∧
      ∃ tail,
        ["[receptor]", "pdb = -", "k1 = v1", "[ligand]", "pdb = -", "k2 = v2"] =
            ["[receptor]", recPdbLine none] ++ kvLines [("k1", "v1")] ++
              ["[ligand]", ligPdbLine none] ++ kvLines [("k2", "v2")] ++ tail ∧
          ((∃ refd refpath newrec newlig,
              (none : Option (List (String × String))) = some refd ∧
              (resolvePaths none).reference_path = some refpath ∧
              lookupDict [("k1", "v1")] "newmol" = some newrec ∧
              lookupDict [("k2", "v2")] "newmol" = some newlig ∧
              tail = ["[reference]", "pdb = " ++ refpath] ++ kvLines refd ++
                ["newrecmol = " ++ newrec, "newligmol = " ++ newlig]) ∨
            (tail = [] ∧ ((none : Option (List (String × String))) = none ∨
              (resolvePaths none).reference_path = none))) :=
  ⟨by decide,
    create_ini_section_order [("k1", "v1")] [("k2", "v2")] none none
      ["[receptor]", "pdb = -", "k1 = v1", "[ligand]", "pdb = -", "k2 = v2"] (by decide)⟩

/-- Elements of the receptor block are the receptor header or key-value
lines. -/
lemma mem_recLines_wf (rp : List (String × String)) (ip : Option (List (String × String))) :
    ∀ l ∈ recLines rp ip, l = "[receptor]" ∨ ∃ k v, l = kvLine k v := by
  intro l hl
  unfold recLines at hl
  rcases List.mem_cons.mp hl with h1 | hl
  · exact Or.inl h1
  rcases List.mem_cons.mp hl with h2 | hl
  · obtain ⟨v, hv⟩ := pdbLine_is_kvLine (resolvePaths ip).receptor_coords_path
      (resolvePaths ip).receptor_top_path (resolvePaths ip).receptor_pdb_path
    exact Or.inr ⟨"pdb", v, h2.trans hv⟩
  · obtain ⟨p, _, hp⟩ := List.mem_map.mp hl
    exact Or.inr ⟨p.1, p.2, hp.symm⟩

/-- Elements of the ligand block are the ligand header or key-value lines. -/
lemma mem_ligLines_wf (lp : List (String × String)) (ip : Option (List (String × String))) :
    ∀ l ∈ ligLines lp ip, l = "[ligand]" ∨ ∃ k v, l = kvLine k v := by
  intro l hl
  unfold ligLines at hl
  rcases List.mem_cons.mp hl with h1 | hl
  · exact Or.inl h1
  rcases List.mem_cons.mp hl with h2 | hl
  · obtain ⟨v, hv⟩ := pdbLine_is_kvLine (resolvePaths ip).ligand_coords_path
      (resolvePaths ip).ligand_top_path (resolvePaths ip).ligand_pdb_path
    exact Or.inr ⟨"pdb", v, h2.trans hv⟩
  · obtain ⟨p, _, hp⟩ := List.mem_map.mp hl
    exact Or.inr ⟨p.1, p.2, hp.symm⟩

/-- C3: create_ini writes a reference section (with its pdb line, one line per
reference_prop entry, and the newrecmol and newligmol lines) if and only if
reference_prop and the resolved reference path are both non-None; in every
other case the written file is exactly the receptor and ligand sections. -/
theorem create_ini_reference_iff (rp lp : List (String × String))
    (refp ip : Option (List (String × String))) (out : List String)
    (h : create_ini rp lp refp ip = some out) :
    (("[reference]" ∈ out) ↔ refp ≠ none ∧ (resolvePaths ip).reference_path ≠ none) ∧
      ((refp = none ∨ (resolvePaths ip).reference_path = none) →
        out = recLines rp ip ++ ligLines lp ip) ∧
      (∀ refd refpath, refp = some refd → (resolvePaths ip).reference_path = some refpath →
        ∃ newrec newlig, lookupDict rp "newmol" = some newrec ∧
          lookupDict lp "newmol" = some newlig ∧
          out = recLines rp ip ++ ligLines lp ip ++
            (["[reference]", "pdb = " ++ refpath] ++ kvLines refd ++
              ["newrecmol = " ++ newrec, "newligmol = " ++ newlig])) := by
  have hnoref : ∀ hc : refp = none ∨ (resolvePaths ip).reference_path = none,
      out = recLines rp ip ++ ligLines lp ip := by
    intro hc
    have he := create_ini_noref_eq rp lp refp ip hc
    rw [he] at h
    exact (Option.some.inj h).symm
  have href : ∀ refd refpath, refp = some refd →
      (resolvePaths ip).reference_path = some refpath →
      ∃ newrec newlig, lookupDict rp "newmol" = some newrec ∧
        lookupDict lp "newmol" = some newlig ∧
        out = recLines rp ip ++ ligLines lp ip ++
          (["[reference]", "pdb = " ++ refpath] ++ kvLines refd ++
            ["newrecmol = " ++ newrec, "newligmol = " ++ newlig]) := by
    intro refd refpath h1 h2
    subst h1
    rw [create_ini_ref_eq rp lp refd ip refpath h2] at h
    unfold refLines at h
    rcases hnr : lookupDict rp "newmol" with _ | newrec
    · rw [hnr] at h
      cases h
    rcases hnl : lookupDict lp "newmol" with _ | newlig
    · rw [hnr, hnl] at h
      cases h
    rw [hnr, hnl] at h
    exact ⟨newrec, newlig, rfl, rfl, (Option.some.inj h).symm⟩
  refine ⟨⟨?_, ?_⟩, hnoref, href⟩
  · intro hmem
    by_cases h1 : refp = none
    · rw [hnoref (Or.inl h1)] at hmem
      rcases List.mem_append.mp hmem with hm | hm
      · exact absurd hm (refheader_not_mem_recLines rp ip)
      · exact absurd hm (refheader_not_mem_ligLines lp ip)
    by_cases h2 : (resolvePaths ip).reference_path = none
    · rw [hnoref (Or.inr h2)] at hmem
      rcases List.mem_append.mp hmem with hm | hm
      · exact absurd hm (refheader_not_mem_recLines rp ip)
      · exact absurd hm (refheader_not_mem_ligLines lp ip)
    exact ⟨h1, h2⟩
  · rintro ⟨h1, h2⟩
    obtain ⟨refd, hrd⟩ := Option.ne_none_iff_exists'.mp h1
    obtain ⟨refpath, hrp2⟩ := Option.ne_none_iff_exists'.mp h2
    obtain ⟨newrec, newlig, _, _, hout⟩ := href refd refpath hrd hrp2
    rw [hout]
    simp

/-- Witness for C3 on a concrete call with a reference present. -/
theorem create_ini_reference_iff_witness :
    create_ini [("newmol", "A")] [("newmol", "B")] (some [("rk", "rv")])
        (some [("input_ref_path", "ref.pdb")]) =
      some ["[receptor]", "pdb = None", "newmol = A", "[ligand]", "pdb = None", "newmol = B",
        "[reference]", "pdb = ref.pdb", "rk = rv", "newrecmol = A", "newligmol = B"] ∧
    (("[reference]" ∈ ["[receptor]", "pdb = None", "newmol = A", "[ligand]", "pdb = None",
          "newmol = B", "[reference]", "pdb = ref.pdb", "rk = rv", "newrecmol = A",
          "newligmol = B"]) ↔
        (some [("rk", "rv")] : Option (List (String × String))) ≠ none ∧
          (resolvePaths (some [("input_ref_path", "ref.pdb")])).reference_path ≠ none) ∧
      (((some [("rk", "rv")] : Option (List (String × String))) = none ∨
          (resolvePaths (some [("input_ref_path", "ref.pdb")])).reference_path = none) →
        ["[receptor]", "pdb = None", "newmol = A", "[ligand]", "pdb = None", "newmol = B",
            "[reference]", "pdb = ref.pdb", "rk = rv", "newrecmol = A", "newligmol = B"] =
          recLines [("newmol", "A")] (some [("input_ref_path", "ref.pdb")]) ++
            ligLines [("newmol", "B")] (some [("input_ref_path", "ref.pdb")])) ∧
      (∀ refd refpath, (some [("rk", "rv")] : Option (List (String × String))) = some refd →
        (resolvePaths (some [("input_ref_path", "ref.pdb")])).reference_path = some refpath →
        ∃ newrec newlig, lookupDict [("newmol", "A")] "newmol" = some newrec ∧
          lookupDict [("newmol", "B")] "newmol" = some newlig ∧
          ["[receptor]", "pdb = None", "newmol = A", "[ligand]", "pdb = None", "newmol = B",
              "[reference]", "pdb = ref.pdb", "rk = rv", "newrecmol = A", "newligmol = B"] =
            recLines [("newmol", "A")] (some [("input_ref_path", "ref.pdb")]) ++
              ligLines [("newmol", "B")] (some [("input_ref_path", "ref.pdb")]) ++
              (["[reference]", "pdb = " ++ refpath] ++ kvLines refd ++
                ["newrecmol = " ++ newrec, "newligmol = " ++ newlig])) :=
  ⟨by decide,
    create_ini_reference_iff [("newmol", "A")] [("newmol", "B")] (some [("rk", "rv")])
      (some [("input_ref_path", "ref.pdb")])
      ["[receptor]", "pdb = None", "newmol = A", "[ligand]", "pdb = None", "newmol = B",
        "[reference]", "pdb = ref.pdb", "rk = rv", "newrecmol = A", "newligmol = B"]
      (by decide)⟩

/-- Key-value block lines are key-value lines. -/
lemma wf_line_of_mem_kvLines (props : List (String × String)) :
    ∀ l ∈ kvLines props, ∃ k v, l = kvLine k v := by
  intro l hl
  obtain ⟨p, _, hp⟩ := List.mem_map.mp hl
  exact ⟨p.1, p.2, hp.symm⟩

/-- C6: every line create_ini writes is well-formed INI content: one of the
three section headers or a key-value line with the ' = ' separator; and
write_ini terminates every line with exactly one newline character. -/
theorem create_ini_lines_wellformed (rp lp : List (String × String))
    (refp ip : Option (List (String × String))) (out : List String)
    (h : create_ini rp lp refp ip = some out) :
    (∀ l ∈ out, l = "[receptor]" ∨ l = "[ligand]" ∨ l = "[reference]" ∨
        ∃ k v, l = kvLine k v) ∧
      write_ini out = String.join (out.map (fun line => line ++ "\n")) := by
  refine ⟨?_, rfl⟩
  obtain ⟨tail, hout, hcases⟩ := create_ini_shape rp lp refp ip out h
  intro l hl
  rw [hout] at hl
  simp only [List.append_assoc, List.cons_append, List.nil_append, List.mem_cons,
    List.mem_append] at hl
  rcases hl with rfl | rfl | hm | rfl | rfl | hm | hm
  · exact Or.inl rfl
  · refine Or.inr (Or.inr (Or.inr ?_))
    obtain ⟨v, hv⟩ := pdbLine_is_kvLine (resolvePaths ip).receptor_coords_path
      (resolvePaths ip).receptor_top_path (resolvePaths ip).receptor_pdb_path
    exact ⟨"pdb", v, hv⟩
  · exact Or.inr (Or.inr (Or.inr (wf_line_of_mem_kvLines rp l hm)))
  · exact Or.inr (Or.inl rfl)
  · refine Or.inr (Or.inr (Or.inr ?_))
    obtain ⟨v, hv⟩ := pdbLine_is_kvLine (resolvePaths ip).ligand_coords_path
      (resolvePaths ip).ligand_top_path (resolvePaths ip).ligand_pdb_path
    exact ⟨"pdb", v, hv⟩
  · exact Or.inr (Or.inr (Or.inr (wf_line_of_mem_kvLines lp l hm)))
  · rcases hcases with ⟨refd, refpath, newrec, newlig, _, _, _, _, rfl⟩ | ⟨rfl, _⟩
    · simp only [List.append_assoc, List.cons_append, List.nil_append, List.mem_cons,
        List.mem_append, List.not_mem_nil, or_false] at hm
      rcases hm with rfl | rfl | hm2 | rfl | rfl
      · exact Or.inr (Or.inr (Or.inl rfl))
      · exact Or.inr (Or.inr (Or.inr ⟨"pdb", refpath, pdb_eq_kvLine refpath⟩))
      · exact Or.inr (Or.inr (Or.inr (wf_line_of_mem_kvLines refd l hm2)))
      · exact Or.inr (Or.inr (Or.inr ⟨"newrecmol", newrec, newrecmol_eq_kvLine newrec⟩))
      · exact Or.inr (Or.inr (Or.inr ⟨"newligmol", newlig, newligmol_eq_kvLine newlig⟩))
    · cases hm

/-- Witness for C6 on a concrete call. -/
theorem create_ini_lines_wellformed_witness :
    create_ini [("k1", "v1")] [] none none =
        some ["[receptor]", "pdb = -", "k1 = v1", "[ligand]", "pdb = -"] ∧
      ((∀ l ∈ ["[receptor]", "pdb = -", "k1 = v1", "[ligand]", "pdb = -"],
          l = "[receptor]" ∨ l = "[ligand]" ∨ l = "[reference]" ∨
            ∃ k v, l = kvLine k v) ∧
        write_ini ["[receptor]", "pdb = -", "k1 = v1", "[ligand]", "pdb = -"] =
          String.join (["[receptor]", "pdb = -", "k1 = v1", "[ligand]", "pdb = -"].map
            (fun line => line ++ "\n"))) :=
  ⟨by decide,
    create_ini_lines_wellformed [("k1", "v1")] [] none none
      ["[receptor]", "pdb = -", "k1 = v1", "[ligand]", "pdb = -"] (by decide)⟩

/-- The pdb line when coordinates and topology are both truthy. -/
lemma pdbLine_coords_top (c t : String) (pdb : Option String) (hc : c ≠ "") (ht : t ≠ "") :
    pdbLine (some c) (some t) pdb = "pdb = " ++ (c ++ ("," ++ t)) := by
  unfold pdbLine
  rw [if_pos]
  · rfl
  · simp [truthy, hc, ht]

/-- The pdb line when the coordinates-and-topology pair is not truthy. -/
lemma pdbLine_fallback (coords top : Option String) (p : String)
    (hf : (truthy coords && truthy top) = false) :
    pdbLine coords top (some p) = "pdb = " ++ p := by
  unfold pdbLine
  rw [if_neg]
  · rfl
  · simp [hf]

/-- A falsy input_paths resolves to the default paths. -/
lemma resolvePaths_falsy (ip : Option (List (String × String)))
    (h : truthyDict ip = false) :
    resolvePaths ip = ⟨some "-", none, none, some "-", none, none, none⟩ := by
  rcases ip with _ | d
  · rfl
  · rcases d with _ | ⟨p, rest⟩
    · rfl
    · simp [truthyDict] at h

/-- C10: the pdb line of each of the receptor and ligand sections is
'coords,top' when both the coordinates and topology paths are present and
truthy (taking precedence over any pdb path), and is the pdb path otherwise;
when input_paths is absent or falsy both sections contain the literal line
'pdb = -'. -/
theorem create_ini_pdb_values (rp lp : List (String × String))
    (refp ip : Option (List (String × String))) (out : List String)
    (h : create_ini rp lp refp ip = some out) :
    (∃ tail, out = ["[receptor]", recPdbLine ip] ++ kvLines rp ++
        ["[ligand]", ligPdbLine ip] ++ kvLines lp ++ tail) ∧
      (∀ c t, (resolvePaths ip).receptor_coords_path = some c → c ≠ "" →
        (resolvePaths ip).receptor_top_path = some t → t ≠ "" →
        recPdbLine ip = "pdb = " ++ (c ++ ("," ++ t))) ∧
      (∀ p, (truthy (resolvePaths ip).receptor_coords_path &&
          truthy (resolvePaths ip).receptor_top_path) = false →
        (resolvePaths ip).receptor_pdb_path = some p → recPdbLine ip = "pdb = " ++ p) ∧
      (∀ c t, (resolvePaths ip).ligand_coords_path = some c → c ≠ "" →
        (resolvePaths ip).ligand_top_path = some t → t ≠ "" →
        ligPdbLine ip = "pdb = " ++ (c ++ ("," ++ t))) ∧
      (∀ p, (truthy (resolvePaths ip).ligand_coords_path &&
          truthy (resolvePaths ip).ligand_top_path) = false →
        (resolvePaths ip).ligand_pdb_path = some p → ligPdbLine ip = "pdb = " ++ p) ∧
      (truthyDict ip = false → recPdbLine ip = "pdb = -" ∧ ligPdbLine ip = "pdb = -") := by
  refine ⟨?_, ?_, ?_, ?_, ?_, ?_⟩
  · obtain ⟨tail, hout, _⟩ := create_ini_shape rp lp refp ip out h
    exact ⟨tail, hout⟩
  · intro c t hc hcne ht htne
    unfold recPdbLine
    rw [hc, ht]
    exact pdbLine_coords_top c t _ hcne htne
  · intro p hf hp
    unfold recPdbLine
    rw [hp]
    exact pdbLine_fallback _ _ p hf
  · intro c t hc hcne ht htne
    unfold ligPdbLine
    rw [hc, ht]
    exact pdbLine_coords_top c t _ hcne htne
  · intro p hf hp
    unfold ligPdbLine
    rw [hp]
    exact pdbLine_fallback _ _ p hf
  · intro hf
    have hr := resolvePaths_falsy ip hf
    constructor
    · unfold recPdbLine
      rw [hr]
      decide
    · unfold ligPdbLine
      rw [hr]
      decide

/-- Witness for C10: receptor has truthy coords and top, ligand falls back to
its pdb path. -/
theorem create_ini_pdb_values_witness :
    create_ini [] []
        none (some [("input_rec_coords_path", "rc"), ("input_rec_top_path", "rt"),
          ("input_lig_pdb_path", "lig.pdb")]) =
      some ["[receptor]", "pdb = rc,rt", "[ligand]", "pdb = lig.pdb"] ∧
    recPdbLine (some [("input_rec_coords_path", "rc"), ("input_rec_top_path", "rt"),
        ("input_lig_pdb_path", "lig.pdb")]) = "pdb = " ++ ("rc" ++ ("," ++ "rt")) ∧
    ligPdbLine (some [("input_rec_coords_path", "rc"), ("input_rec_top_path", "rt"),
        ("input_lig_pdb_path", "lig.pdb")]) = "pdb = " ++ "lig.pdb" := by
  have h : create_ini [] []
      none (some [("input_rec_coords_path", "rc"), ("input_rec_top_path", "rt"),
        ("input_lig_pdb_path", "lig.pdb")]) =
      some ["[receptor]", "pdb = rc,rt", "[ligand]", "pdb = lig.pdb"] := by decide
  have hc := create_ini_pdb_values [] []
    none (some [("input_rec_coords_path", "rc"), ("input_rec_top_path", "rt"),
      ("input_lig_pdb_path", "lig.pdb")])
    ["[receptor]", "pdb = rc,rt", "[ligand]", "pdb = lig.pdb"] h
  refine ⟨h, ?_, ?_⟩
  · exact hc.2.1 "rc" "rt" (by decide) (by decide) (by decide) (by decide)
  · exact hc.2.2.2.2.1 "lig.pdb" (by decide) (by decide)

/-- C9: when the reference branch is taken, a missing 'newmol' key in the
receptor or ligand properties raises KeyError before write_ini runs, so no
file content is produced; when both 'newmol' keys are present the error is
unreachable and the file is written. -/
theorem create_ini_keyerror_newmol (rp lp refd : List (String × String))
    (ip : Option (List (String × String))) (refpath : String)
    (hpath : (resolvePaths ip).reference_path = some refpath) :
    ((lookupDict rp "newmol" = none ∨ lookupDict lp "newmol" = none) →
      create_ini rp lp (some refd) ip = none ∧
        create_ini_file rp lp (some refd) ip = none) ∧
    (∀ newrec newlig, lookupDict rp "newmol" = some newrec →
      lookupDict lp "newmol" = some newlig →
      ∃ content, create_ini_file rp lp (some refd) ip = some content) := by
  have he := create_ini_ref_eq rp lp refd ip refpath hpath
  constructor
  · intro hmiss
    have hrl : refLines rp lp refd refpath = none := by
      unfold refLines
      rcases hmiss with hm | hm
      · rw [hm]
      · rw [hm]
        rcases lookupDict rp "newmol" with _ | nr <;> rfl
    refine ⟨?_, ?_⟩
    · rw [he, hrl]
      rfl
    · unfold create_ini_file
      rw [he, hrl]
      rfl
  · intro newrec newlig hnr hnl
    have hrl : refLines rp lp refd refpath =
        some (["[reference]", "pdb = " ++ refpath] ++ kvLines refd ++
          ["newrecmol = " ++ newrec, "newligmol = " ++ newlig]) := by
      unfold refLines
      rw [hnr, hnl]
    refine ⟨write_ini (recLines rp ip ++ ligLines lp ip ++
      (["[reference]", "pdb = " ++ refpath] ++ kvLines refd ++
        ["newrecmol = " ++ newrec, "newligmol = " ++ newlig])), ?_⟩
    unfold create_ini_file
    rw [he, hrl]
    rfl

/-- Witness for C9: with the reference branch taken and no 'newmol' key, the
call produces no file; with both keys present a file is produced. -/
theorem create_ini_keyerror_newmol_witness :
    (resolvePaths (some [("input_ref_path", "r.pdb")])).reference_path = some "r.pdb" ∧
    ((lookupDict [("x", "y")] "newmol" = none ∨ lookupDict [] "newmol" = none) →
      create_ini [("x", "y")] [] (some []) (some [("input_ref_path", "r.pdb")]) = none ∧
        create_ini_file [("x", "y")] [] (some []) (some [("input_ref_path", "r.pdb")]) =
          none) ∧
    (∀ newrec newlig, lookupDict [("x", "y")] "newmol" = some newrec →
      lookupDict [] "newmol" = some newlig →
      ∃ content, create_ini_file [("x", "y")] [] (some [])
        (some [("input_ref_path", "r.pdb")]) = some content) :=
  ⟨by decide,
    create_ini_keyerror_newmol [("x", "y")] [] [] (some [("input_ref_path", "r.pdb")])
      "r.pdb" (by decide)⟩

/-! ## common.py: rename_files and copy_files

The file system is a flat partial map from path strings to file contents.
Both functions iterate over destination_paths.items() in insertion order;
source_paths[file_ref] raises KeyError (modelled as none) when the key is
absent; entries whose source path does not exist are silently skipped. -/

/-- A flat file system: each existing path maps to its content. -/
def FileSys : Type := String → Option String

/-- shutil.move src dest on flat files: dest receives the content of src and
src is removed; moving a file onto itself is a no-op, as with os.rename. -/
def moveFile (src dest : String) (fs : FileSys) : FileSys :=
  fun p => if p = dest then fs src else if p = src then none else fs p

/-- The effect of a successful shutil.copy src dest: dest receives the
content of src.  copy_files applies it only when src and dest differ; the
SameFileError that shutil.copy raises on a path copied onto itself is
modelled there. -/
def copyFile (src dest : String) (fs : FileSys) : FileSys :=
  fun p => if p = dest then fs src else fs p

/-- common.py rename_files. -/
def rename_files (source_paths : List (String × String)) :
    List (String × String) → FileSys → Option FileSys
  | [], fs => some fs
  | (file_ref, destination_path) :: rest, fs =>
    match lookupDict source_paths file_ref with
    | none => none
    | some src =>
      if (fs src).isSome then
        rename_files source_paths rest (moveFile src destination_path fs)
      else
        rename_files source_paths rest fs

/-- common.py copy_files.  When an existing source path equals its
destination path, shutil.copy raises SameFileError (modelled as none); the
existence check runs first, so a missing source is skipped even then. -/
def copy_files (source_paths : List (String × String)) :
    List (String × String) → FileSys → Option FileSys
  | [], fs => some fs
  | (file_ref, destination_path) :: rest, fs =>
    match lookupDict source_paths file_ref with
    | none => none
    | some src =>
      if (fs src).isSome then
        if src = destination_path then none
        else copy_files source_paths rest (copyFile src destination_path fs)
      else
        copy_files source_paths rest fs

/-- The source paths used by the entries of destination_paths. -/
def srcsOf (sp dp : List (String × String)) : List String :=
  dp.filterMap (fun kd => lookupDict sp kd.1)

/-- The destination paths of the entries. -/
def destsOf (dp : List (String × String)) : List String :=
  dp.map (fun kd => kd.2)

/-- Observe the state of a possibly-raised run at one path. -/
def obs (r : Option FileSys) (p : String) : Option (Option String) :=
  r.map (fun fs => fs p)

lemma srcsOf_cons_some (sp : List (String × String)) (k d : String)
    (rest : List (String × String)) (src : String) (hl : lookupDict sp k = some src) :
    srcsOf sp ((k, d) :: rest) = src :: srcsOf sp rest := by
  unfold srcsOf
  rw [List.filterMap_cons, hl]

lemma destsOf_cons (k d : String) (rest : List (String × String)) :
    destsOf ((k, d) :: rest) = d :: destsOf rest := rfl

/-- Pairwise distinctness of the used sources and the destinations implies
that no entry names its own source as its destination. -/
lemma noself_of_nodup (sp dp : List (String × String))
    (hnd : (srcsOf sp dp ++ destsOf dp).Nodup) :
    ∀ kd ∈ dp, ∀ s, lookupDict sp kd.1 = some s → s ≠ kd.2 := by
  intro kd hm s hs e
  have hsS : s ∈ srcsOf sp dp := List.mem_filterMap.mpr ⟨kd, hm, hs⟩
  have hdD : kd.2 ∈ destsOf dp := List.mem_map.mpr ⟨kd, hm, rfl⟩
  exact (List.disjoint_of_nodup_append hnd) hsS (by rw [e]; exact hdD)

/-- rename_files touches no path outside the used sources and the
destinations. -/
lemma rename_files_frame (sp : List (String × String)) :
    ∀ (dp : List (String × String)) (fs fs' : FileSys),
      rename_files sp dp fs = some fs' →
      ∀ p, p ∉ srcsOf sp dp → p ∉ destsOf dp → fs' p = fs p := by
  intro dp
  induction dp with
  | nil =>
    intro fs fs' h p _ _
    exact congrFun (Option.some.inj h).symm p
  | cons hd rest ih =>
    obtain ⟨k, dest⟩ := hd
    intro fs fs' h p hps hpd
    rcases hl : lookupDict sp k with _ | src
    · simp only [rename_files, hl] at h
      cases h
    · simp only [rename_files, hl] at h
      rw [srcsOf_cons_some sp k dest rest src hl] at hps
      rw [destsOf_cons] at hpd
      simp only [List.mem_cons, not_or] at hps hpd
      by_cases hex : (fs src).isSome
      · rw [if_pos hex] at h
        have hfr := ih (moveFile src dest fs) fs' h p hps.2 hpd.2
        rw [hfr]
        unfold moveFile
        rw [if_neg hpd.1, if_neg hps.1]
      · rw [if_neg hex] at h
        exact ih fs fs' h p hps.2 hpd.2

/-- copy_files touches no path outside the destinations. -/
lemma copy_files_frame (sp : List (String × String)) :
    ∀ (dp : List (String × String)) (fs fs' : FileSys),
      copy_files sp dp fs = some fs' →
      ∀ p, p ∉ srcsOf sp dp → p ∉ destsOf dp → fs' p = fs p := by
  intro dp
  induction dp with
  | nil =>
    intro fs fs' h p _ _
    exact congrFun (Option.some.inj h).symm p
  | cons hd rest ih =>
    obtain ⟨k, dest⟩ := hd
    intro fs fs' h p hps hpd
    rcases hl : lookupDict sp k with _ | src
    · simp only [copy_files, hl] at h
      cases h
    · simp only [copy_files, hl] at h
      rw [srcsOf_cons_some sp k dest rest src hl] at hps
      rw [destsOf_cons] at hpd
      simp only [List.mem_cons, not_or] at hps hpd
      by_cases hex : (fs src).isSome
      · rw [if_pos hex] at h
        by_cases hsd : src = dest
        · rw [if_pos hsd] at h
          cases h
        · rw [if_neg hsd] at h
          have hfr := ih (copyFile src dest fs) fs' h p hps.2 hpd.2
          rw [hfr]
          unfold copyFile
          rw [if_neg hpd.1]
      · rw [if_neg hex] at h
        exact ih fs fs' h p hps.2 hpd.2

/-- rename_files succeeds when every destination key has a source path. -/
lemma rename_files_isSome (sp : List (String × String)) :
    ∀ (dp : List (String × String)) (fs : FileSys),
      (∀ kd ∈ dp, (lookupDict sp kd.1).isSome = true) →
      (rename_files sp dp fs).isSome = true := by
  intro dp
  induction dp with
  | nil => intro fs _; rfl
  | cons hd rest ih =>
    obtain ⟨k, dest⟩ := hd
    intro fs hkeys
    have hk := hkeys (k, dest) (List.mem_cons_self _ _)
    rcases hl : lookupDict sp k with _ | src
    · rw [hl] at hk
      cases hk
    · simp only [rename_files, hl]
      have hrest : ∀ kd ∈ rest, (lookupDict sp kd.1).isSome = true :=
        fun kd hm => hkeys kd (List.mem_cons_of_mem _ hm)
      by_cases hex : (fs src).isSome
      · rw [if_pos hex]
        exact ih _ hrest
      · rw [if_neg hex]
        exact ih _ hrest

/-- copy_files succeeds when every destination key has a source path and no
entry names its own source as its destination (shutil.copy raises
SameFileError on an existing path copied onto itself). -/
lemma copy_files_isSome (sp : List (String × String)) :
    ∀ (dp : List (String × String)) (fs : FileSys),
      (∀ kd ∈ dp, (lookupDict sp kd.1).isSome = true) →
      (∀ kd ∈ dp, ∀ s, lookupDict sp kd.1 = some s → s ≠ kd.2) →
      (copy_files sp dp fs).isSome = true := by
  intro dp
  induction dp with
  | nil => intro fs _ _; rfl
  | cons hd rest ih =>
    obtain ⟨k, dest⟩ := hd
    intro fs hkeys hnoself
    have hk := hkeys (k, dest) (List.mem_cons_self _ _)
    rcases hl : lookupDict sp k with _ | src
    · rw [hl] at hk
      cases hk
    · simp only [copy_files, hl]
      have hrest : ∀ kd ∈ rest, (lookupDict sp kd.1).isSome = true :=
        fun kd hm => hkeys kd (List.mem_cons_of_mem _ hm)
      have hnsrest : ∀ kd ∈ rest, ∀ s, lookupDict sp kd.1 = some s → s ≠ kd.2 :=
        fun kd hm => hnoself kd (List.mem_cons_of_mem _ hm)
      have hns : src ≠ dest := hnoself (k, dest) (List.mem_cons_self _ _) src hl
      by_cases hex : (fs src).isSome
      · rw [if_pos hex, if_neg hns]
        exact ih _ hrest hnsrest
      · rw [if_neg hex]
        exact ih _ hrest hnsrest

/-- Frame property of rename_files in observation form. -/
lemma rename_files_obs_frame (sp dp : List (String × String)) (fs : FileSys)
    (hkeys : ∀ kd ∈ dp, (lookupDict sp kd.1).isSome = true) (p : String)
    (hp1 : p ∉ srcsOf sp dp) (hp2 : p ∉ destsOf dp) :
    obs (rename_files sp dp fs) p = some (fs p) := by
  have hsome := rename_files_isSome sp dp fs hkeys
  rcases hr : rename_files sp dp fs with _ | fs'
  · rw [hr] at hsome
    cases hsome
  · unfold obs
    exact congrArg some (rename_files_frame sp dp fs fs' hr p hp1 hp2)

/-- Frame property of copy_files in observation form. -/
lemma copy_files_obs_frame (sp dp : List (String × String)) (fs : FileSys)
    (hkeys : ∀ kd ∈ dp, (lookupDict sp kd.1).isSome = true)
    (hnoself : ∀ kd ∈ dp, ∀ s, lookupDict sp kd.1 = some s → s ≠ kd.2) (p : String)
    (hp1 : p ∉ srcsOf sp dp) (hp2 : p ∉ destsOf dp) :
    obs (copy_files sp dp fs) p = some (fs p) := by
  have hsome := copy_files_isSome sp dp fs hkeys hnoself
  rcases hr : copy_files sp dp fs with _ | fs'
  · rw [hr] at hsome
    cases hsome
  · unfold obs
    exact congrArg some (copy_files_frame sp dp fs fs' hr p hp1 hp2)

/-- Per-entry behavior of rename_files under pairwise-distinct paths: the
source is gone afterwards; an existing source's content is at the
destination; a skipped entry leaves its destination untouched. -/
lemma rename_files_spec (sp : List (String × String)) :
    ∀ (dp : List (String × String)) (fs : FileSys),
      (∀ kd ∈ dp, (lookupDict sp kd.1).isSome = true) →
      (srcsOf sp dp ++ destsOf dp).Nodup →
      ∀ k d, (k, d) ∈ dp → ∀ s, lookupDict sp k = some s →
        obs (rename_files sp dp fs) s = some none ∧
        (∀ c, fs s = some c → obs (rename_files sp dp fs) d = some (some c)) ∧
        (fs s = none → obs (rename_files sp dp fs) d = some (fs d)) := by
  intro dp
  induction dp with
  | nil =>
    intro fs _ _ k d hm
    cases hm
  | cons hd rest ih =>
    obtain ⟨k0, d0⟩ := hd
    intro fs hkeys hnd k d hm s hs
    have hk0 := hkeys (k0, d0) (List.mem_cons_self _ _)
    rcases hl0 : lookupDict sp k0 with _ | s0
    · rw [hl0] at hk0
      cases hk0
    rw [srcsOf_cons_some sp k0 d0 rest s0 hl0, destsOf_cons, List.cons_append] at hnd
    have hs0 : s0 ∉ srcsOf sp rest ++ d0 :: destsOf rest := (List.nodup_cons.mp hnd).1
    have hnd2 : (srcsOf sp rest ++ d0 :: destsOf rest).Nodup := (List.nodup_cons.mp hnd).2
    have hs0S : s0 ∉ srcsOf sp rest := fun hc => hs0 (List.mem_append_left _ hc)
    have hs0d0 : s0 ≠ d0 := fun e =>
      hs0 (List.mem_append_right _ (by rw [e]; exact List.mem_cons_self _ _))
    have hs0D : s0 ∉ destsOf rest :=
      fun hc => hs0 (List.mem_append_right _ (List.mem_cons_of_mem _ hc))
    have hd0S : d0 ∉ srcsOf sp rest := fun hc =>
      (List.disjoint_of_nodup_append hnd2) hc (List.mem_cons_self _ _)
    have hd0D : d0 ∉ destsOf rest :=
      (List.nodup_cons.mp (List.Nodup.of_append_right hnd2)).1
    have hndrest : (srcsOf sp rest ++ destsOf rest).Nodup :=
      List.Nodup.sublist (((List.Sublist.refl _).cons d0).append_left _) hnd2
    have hkeysrest : ∀ kd ∈ rest, (lookupDict sp kd.1).isSome = true :=
      fun kd hmm => hkeys kd (List.mem_cons_of_mem _ hmm)
    rcases List.mem_cons.mp hm with heq | hmrest
    · have hk : k = k0 := congrArg Prod.fst heq
      have hd : d = d0 := congrArg Prod.snd heq
      subst hk
      subst hd
      have hss0 : s = s0 := by
        rw [hs] at hl0
        exact Option.some.inj hl0
      subst hss0
      simp only [rename_files, hl0]
      by_cases hex : (fs s).isSome
      · rw [if_pos hex]
        refine ⟨?_, ?_, ?_⟩
        · rw [rename_files_obs_frame sp rest (moveFile s d fs) hkeysrest s hs0S hs0D]
          unfold moveFile
          rw [if_neg hs0d0, if_pos rfl]
        · intro c hc
          rw [rename_files_obs_frame sp rest (moveFile s d fs) hkeysrest d hd0S hd0D]
          unfold moveFile
          rw [if_pos rfl, hc]
        · intro hnone
          rw [hnone] at hex
          cases hex
      · rw [if_neg hex]
        have hsnone : fs s = none := by
          revert hex
          rcases fs s with _ | c <;> simp
        refine ⟨?_, ?_, ?_⟩
        · rw [rename_files_obs_frame sp rest fs hkeysrest s hs0S hs0D, hsnone]
        · intro c hc
          rw [hc] at hsnone
          cases hsnone
        · intro _
          rw [rename_files_obs_frame sp rest fs hkeysrest d hd0S hd0D]
    · have hsS : s ∈ srcsOf sp rest := List.mem_filterMap.mpr ⟨(k, d), hmrest, hs⟩
      have hdD : d ∈ destsOf rest := List.mem_map.mpr ⟨(k, d), hmrest, rfl⟩
      have hss0 : s ≠ s0 := fun e => hs0S (e ▸ hsS)
      have hsd0 : s ≠ d0 := fun e => hd0S (e ▸ hsS)
      have hds0 : d ≠ s0 := fun e => hs0D (e ▸ hdD)
      have hdd0 : d ≠ d0 := fun e => hd0D (e ▸ hdD)
      simp only [rename_files, hl0]
      by_cases hex : (fs s0).isSome
      · rw [if_pos hex]
        have hIH := ih (moveFile s0 d0 fs) hkeysrest hndrest k d hmrest s hs
        have hfs1s : moveFile s0 d0 fs s = fs s := by
          unfold moveFile
          rw [if_neg hsd0, if_neg hss0]
        have hfs1d : moveFile s0 d0 fs d = fs d := by
          unfold moveFile
          rw [if_neg hdd0, if_neg hds0]
        refine ⟨hIH.1, ?_, ?_⟩
        · intro c hc
          exact hIH.2.1 c (by rw [hfs1s]; exact hc)
        · intro hnone
          rw [hIH.2.2 (by rw [hfs1s]; exact hnone), hfs1d]
      · rw [if_neg hex]
        exact ih fs hkeysrest hndrest k d hmrest s hs

/-- Per-entry behavior of copy_files under pairwise-distinct paths: the
source keeps its content; an existing source's content appears at the
destination; a skipped entry leaves its destination untouched. -/
lemma copy_files_spec (sp : List (String × String)) :
    ∀ (dp : List (String × String)) (fs : FileSys),
      (∀ kd ∈ dp, (lookupDict sp kd.1).isSome = true) →
      (srcsOf sp dp ++ destsOf dp).Nodup →
      ∀ k d, (k, d) ∈ dp → ∀ s, lookupDict sp k = some s →
        obs (copy_files sp dp fs) s = some (fs s) ∧
        (∀ c, fs s = some c → obs (copy_files sp dp fs) d = some (some c)) ∧
        (fs s = none → obs (copy_files sp dp fs) d = some (fs d)) := by
  intro dp
  induction dp with
  | nil =>
    intro fs _ _ k d hm
    cases hm
  | cons hd rest ih =>
    obtain ⟨k0, d0⟩ := hd
    intro fs hkeys hnd k d hm s hs
    have hk0 := hkeys (k0, d0) (List.mem_cons_self _ _)
    rcases hl0 : lookupDict sp k0 with _ | s0
    · rw [hl0] at hk0
      cases hk0
    rw [srcsOf_cons_some sp k0 d0 rest s0 hl0, destsOf_cons, List.cons_append] at hnd
    have hs0 : s0 ∉ srcsOf sp rest ++ d0 :: destsOf rest := (List.nodup_cons.mp hnd).1
    have hnd2 : (srcsOf sp rest ++ d0 :: destsOf rest).Nodup := (List.nodup_cons.mp hnd).2
    have hs0S : s0 ∉ srcsOf sp rest := fun hc => hs0 (List.mem_append_left _ hc)
    have hs0d0 : s0 ≠ d0 := fun e =>
      hs0 (List.mem_append_right _ (by rw [e]; exact List.mem_cons_self _ _))
    have hs0D : s0 ∉ destsOf rest :=
      fun hc => hs0 (List.mem_append_right _ (List.mem_cons_of_mem _ hc))
    have hd0S : d0 ∉ srcsOf sp rest := fun hc =>
      (List.disjoint_of_nodup_append hnd2) hc (List.mem_cons_self _ _)
    have hd0D : d0 ∉ destsOf rest :=
      (List.nodup_cons.mp (List.Nodup.of_append_right hnd2)).1
    have hndrest : (srcsOf sp rest ++ destsOf rest).Nodup :=
      List.Nodup.sublist (((List.Sublist.refl _).cons d0).append_left _) hnd2
    have hkeysrest : ∀ kd ∈ rest, (lookupDict sp kd.1).isSome = true :=
      fun kd hmm => hkeys kd (List.mem_cons_of_mem _ hmm)
    rcases List.mem_cons.mp hm with heq | hmrest
    · have hk : k = k0 := congrArg Prod.fst heq
      have hd : d = d0 := congrArg Prod.snd heq
      subst hk
      subst hd
      have hss0 : s = s0 := by
        rw [hs] at hl0
        exact Option.some.inj hl0
      subst hss0
      simp only [copy_files, hl0]
      by_cases hex : (fs s).isSome
      · rw [if_pos hex, if_neg hs0d0]
        have hfss : copyFile s d fs s = fs s := by
          unfold copyFile
          rw [if_neg hs0d0]
        refine ⟨?_, ?_, ?_⟩
        · rw [copy_files_obs_frame sp rest (copyFile s d fs) hkeysrest (noself_of_nodup sp rest hndrest) s hs0S hs0D, hfss]
        · intro c hc
          rw [copy_files_obs_frame sp rest (copyFile s d fs) hkeysrest (noself_of_nodup sp rest hndrest) d hd0S hd0D]
          unfold copyFile
          rw [if_pos rfl, hc]
        · intro hnone
          rw [hnone] at hex
          cases hex
      · rw [if_neg hex]
        refine ⟨?_, ?_, ?_⟩
        · rw [copy_files_obs_frame sp rest fs hkeysrest (noself_of_nodup sp rest hndrest) s hs0S hs0D]
        · intro c hc
          have hsnone : fs s = none := by
            revert hex
            rcases fs s with _ | c2 <;> simp
          rw [hc] at hsnone
          cases hsnone
        · intro _
          rw [copy_files_obs_frame sp rest fs hkeysrest (noself_of_nodup sp rest hndrest) d hd0S hd0D]
    · have hsS : s ∈ srcsOf sp rest := List.mem_filterMap.mpr ⟨(k, d), hmrest, hs⟩
      have hdD : d ∈ destsOf rest := List.mem_map.mpr ⟨(k, d), hmrest, rfl⟩
      have hss0 : s ≠ s0 := fun e => hs0S (e ▸ hsS)
      have hsd0 : s ≠ d0 := fun e => hd0S (e ▸ hsS)
      have hdd0 : d ≠ d0 := fun e => hd0D (e ▸ hdD)
      simp only [copy_files, hl0]
      by_cases hex : (fs s0).isSome
      · rw [if_pos hex, if_neg hs0d0]
        have hIH := ih (copyFile s0 d0 fs) hkeysrest hndrest k d hmrest s hs
        have hfs1s : copyFile s0 d0 fs s = fs s := by
          unfold copyFile
          rw [if_neg hsd0]
        have hfs1d : copyFile s0 d0 fs d = fs d := by
          unfold copyFile
          rw [if_neg hdd0]
        refine ⟨by rw [hIH.1, hfs1s], ?_, ?_⟩
        · intro c hc
          exact hIH.2.1 c (by rw [hfs1s]; exact hc)
        · intro hnone
          rw [hIH.2.2 (by rw [hfs1s]; exact hnone), hfs1d]
      · rw [if_neg hex]
        exact ih fs hkeysrest hndrest k d hmrest s hs

/-- A destination key with no source mapping raises KeyError in
rename_files. -/
lemma rename_files_keyerror (sp : List (String × String)) (k d : String) :
    ∀ (dp : List (String × String)) (fs : FileSys),
      (k, d) ∈ dp → lookupDict sp k = none → rename_files sp dp fs = none := by
  intro dp
  induction dp with
  | nil =>
    intro fs hm _
    cases hm
  | cons hd rest ih =>
    obtain ⟨k0, d0⟩ := hd
    intro fs hm hl
    rcases List.mem_cons.mp hm with heq | hmrest
    · have hk : k = k0 := congrArg Prod.fst heq
      subst hk
      simp only [rename_files, hl]
    · rcases hl0 : lookupDict sp k0 with _ | s0
      · simp only [rename_files, hl0]
      · simp only [rename_files, hl0]
        by_cases hex : (fs s0).isSome
        · rw [if_pos hex]
          exact ih _ hmrest hl
        · rw [if_neg hex]
          exact ih _ hmrest hl

/-- A destination key with no source mapping raises KeyError in
copy_files. -/
lemma copy_files_keyerror (sp : List (String × String)) (k d : String) :
    ∀ (dp : List (String × String)) (fs : FileSys),
      (k, d) ∈ dp → lookupDict sp k = none → copy_files sp dp fs = none := by
  intro dp
  induction dp with
  | nil =>
    intro fs hm _
    cases hm
  | cons hd rest ih =>
    obtain ⟨k0, d0⟩ := hd
    intro fs hm hl
    rcases List.mem_cons.mp hm with heq | hmrest
    · have hk : k = k0 := congrArg Prod.fst heq
      subst hk
      simp only [copy_files, hl]
    · rcases hl0 : lookupDict sp k0 with _ | s0
      · simp only [copy_files, hl0]
      · simp only [copy_files, hl0]
        by_cases hex : (fs s0).isSome
        · rw [if_pos hex]
          by_cases hsd : s0 = d0
          · rw [if_pos hsd]
          · rw [if_neg hsd]
            exact ih _ hmrest hl
        · rw [if_neg hex]
          exact ih _ hmrest hl

/-! ## Claims about rename_files and copy_files -/

/-- C7 counterexample: with source_paths a maps to p, b maps to r and
destination_paths a maps to q, b maps to p over a file system where p and r
both exist, entry a moves p to q but entry b then moves r onto p, so the
source path p of entry a exists again after rename_files returns — against
the claim that each moved source no longer exists afterwards. -/
theorem rename_files_source_reappears :
    ("a", "p") ∈ [("a", "p"), ("b", "r")] ∧
    ("a", "q") ∈ [("a", "q"), ("b", "p")] ∧
    (fun x => if x = "p" then some "P" else if x = "r" then some "R" else none : FileSys)
        "p" = some "P" ∧
    obs (rename_files [("a", "p"), ("b", "r")] [("a", "q"), ("b", "p")]
      (fun x => if x = "p" then some "P" else if x = "r" then some "R" else none)) "p" =
        some (some "R") := by
  refine ⟨by decide, by decide, rfl, by decide⟩

/-- C7 (amended): when every destination key has a source path and the used
source paths together with the destination paths are pairwise distinct,
rename_files moves each existing source file to its destination and the
source no longer exists afterwards, copy_files copies it leaving the source
unchanged, entries with a missing source leave their destination untouched,
and no path outside the listed source and destination paths is created,
modified, or removed. -/
theorem rename_copy_files_frame_spec (sp dp : List (String × String)) (fs : FileSys)
    (hkeys : ∀ kd ∈ dp, (lookupDict sp kd.1).isSome = true)
    (hnd : (srcsOf sp dp ++ destsOf dp).Nodup) :
    (∀ k d, (k, d) ∈ dp → ∀ s, lookupDict sp k = some s →
      obs (rename_files sp dp fs) s = some none ∧
      (∀ c, fs s = some c → obs (rename_files sp dp fs) d = some (some c)) ∧
      (fs s = none → obs (rename_files sp dp fs) d = some (fs d)) ∧
      obs (copy_files sp dp fs) s = some (fs s) ∧
      (∀ c, fs s = some c → obs (copy_files sp dp fs) d = some (some c)) ∧
      (fs s = none → obs (copy_files sp dp fs) d = some (fs d))) ∧
    (∀ p, p ∉ srcsOf sp dp → p ∉ destsOf dp →
      obs (rename_files sp dp fs) p = some (fs p) ∧
      obs (copy_files sp dp fs) p = some (fs p)) := by
  constructor
  · intro k d hm s hs
    have h1 := rename_files_spec sp dp fs hkeys hnd k d hm s hs
    have h2 := copy_files_spec sp dp fs hkeys hnd k d hm s hs
    exact ⟨h1.1, h1.2.1, h1.2.2, h2.1, h2.2.1, h2.2.2⟩
  · intro p hp1 hp2
    exact ⟨rename_files_obs_frame sp dp fs hkeys p hp1 hp2,
      copy_files_obs_frame sp dp fs hkeys (noself_of_nodup sp dp hnd) p hp1 hp2⟩

/-- Witness for the amended C7 on one entry a: p moved to q / copied to q. -/
theorem rename_copy_files_frame_spec_witness :
    ((∀ kd ∈ [("a", "q")], (lookupDict [("a", "p")] kd.1).isSome = true) ∧
      (srcsOf [("a", "p")] [("a", "q")] ++ destsOf [("a", "q")]).Nodup) ∧
    obs (rename_files [("a", "p")] [("a", "q")]
        (fun x => if x = "p" then some "P" else none)) "p" = some none ∧
    obs (rename_files [("a", "p")] [("a", "q")]
        (fun x => if x = "p" then some "P" else none)) "q" = some (some "P") ∧
    obs (copy_files [("a", "p")] [("a", "q")]
        (fun x => if x = "p" then some "P" else none)) "p" = some (some "P") ∧
    obs (copy_files [("a", "p")] [("a", "q")]
        (fun x => if x = "p" then some "P" else none)) "q" = some (some "P") ∧
    obs (rename_files [("a", "p")] [("a", "q")]
        (fun x => if x = "p" then some "P" else none)) "z" = some none := by
  have h := rename_copy_files_frame_spec [("a", "p")] [("a", "q")]
    (fun x => if x = "p" then some "P" else none) (by decide) (by decide)
  have h1 := h.1 "a" "q" (by decide) "p" (by decide)
  exact ⟨⟨by decide, by decide⟩, h1.1, h1.2.1 "P" rfl, h1.2.2.2.1,
    h1.2.2.2.2.1 "P" rfl, (h.2 "z" (by decide) (by decide)).1⟩

/-- C8: an entry whose source path does not exist when the loop reaches it is
silently skipped by rename_files and copy_files — the file system is left as
it was and the remaining entries are still processed; a destination key
absent from source_paths raises KeyError; when every destination key is
present rename_files raises no exception, and copy_files raises none
provided additionally that no entry copies an existing file onto itself
(there shutil.copy raises SameFileError). -/
theorem rename_copy_files_skip_and_keyerror :
    (∀ (sp : List (String × String)) (k d : String) (rest : List (String × String))
      (fs : FileSys) (s : String), lookupDict sp k = some s → fs s = none →
      rename_files sp ((k, d) :: rest) fs = rename_files sp rest fs ∧
      copy_files sp ((k, d) :: rest) fs = copy_files sp rest fs) ∧
    (∀ (sp dp : List (String × String)) (fs : FileSys) (k d : String),
      (k, d) ∈ dp → lookupDict sp k = none →
      rename_files sp dp fs = none ∧ copy_files sp dp fs = none) ∧
    (∀ (sp dp : List (String × String)) (fs : FileSys),
      (∀ kd ∈ dp, (lookupDict sp kd.1).isSome = true) →
      (rename_files sp dp fs).isSome = true) ∧
    (∀ (sp dp : List (String × String)) (fs : FileSys),
      (∀ kd ∈ dp, (lookupDict sp kd.1).isSome = true) →
      (∀ kd ∈ dp, ∀ s, lookupDict sp kd.1 = some s → s ≠ kd.2) →
      (copy_files sp dp fs).isSome = true) := by
  refine ⟨?_, ?_, ?_, ?_⟩
  · intro sp k d rest fs s hl hnone
    constructor
    · simp only [rename_files, hl]
      rw [if_neg (by simp [hnone])]
    · simp only [copy_files, hl]
      rw [if_neg (by simp [hnone])]
  · intro sp dp fs k d hm hl
    exact ⟨rename_files_keyerror sp k d dp fs hm hl, copy_files_keyerror sp k d dp fs hm hl⟩
  · intro sp dp fs hkeys
    exact rename_files_isSome sp dp fs hkeys
  · intro sp dp fs hkeys hnoself
    exact copy_files_isSome sp dp fs hkeys hnoself

/-- Witness for C8: a skipped missing source, a KeyError and clean runs. -/
theorem rename_copy_files_skip_and_keyerror_witness :
    lookupDict [("a", "p")] "a" = some "p" ∧
    (fun _ : String => (none : Option String)) "p" = none ∧
    rename_files [("a", "p")] [("a", "q")] (fun _ => none) =
      rename_files [("a", "p")] [] (fun _ => none) ∧
    copy_files [("a", "p")] [("a", "q")] (fun _ => none) =
      copy_files [("a", "p")] [] (fun _ => none) ∧
    rename_files [] [("b", "q")] (fun _ => none) = none ∧
    copy_files [] [("b", "q")] (fun _ => none) = none ∧
    (rename_files [("a", "p")] [("a", "q")] (fun _ => none)).isSome = true ∧
    (copy_files [("a", "p")] [("a", "q")] (fun _ => none)).isSome = true := by
  have h := rename_copy_files_skip_and_keyerror
  have hskip := h.1 [("a", "p")] "a" "q" [] (fun _ => none) "p" rfl rfl
  have hkey := h.2.1 [] [("b", "q")] (fun _ => none) "b" "q" (by decide) rfl
  have hrsome := h.2.2.1 [("a", "p")] [("a", "q")] (fun _ => none) (by decide)
  have hcsome := h.2.2.2 [("a", "p")] [("a", "q")] (fun _ => none) (by decide) (by decide)
  exact ⟨rfl, rfl, hskip.1, hskip.2, hkey.1, hkey.2, hrsome, hcsome⟩
